import Mathlib

/-!
Verification of the flho workflow-orchestration engine
(`flho/internal/service/workflow.go`, package `service`).

The engine is shallowly embedded as an explicit state-transition system:

* Go `map`s (`workflow.Workflows`, `map[string]Step`) and the two run-time
  maps (`sync.Map` of runs, the genie key-value store) become association
  lists over `String` keys.
* A `context.CancelFunc` becomes a numeric token; calling it adds the token
  to the set of cancelled tokens.  Each `context.WithCancel` allocates a
  fresh token (`nextCtx`).
* Every `go w.processStep(...)` statement adds a `Watchdog` record to the
  `pending` list; a separate `enter` transition models the spawned
  goroutine actually executing the body of `processStep` up to the
  `select` (validation, `store.Set`, arming the ticker), after which the
  goroutine sits in the `armed` list.  `fire` and `cancelExit` transitions
  model the two `select` branches (ticker tick / `ctx.Done()`).
* `time.Time` is a `Nat`; `timeProvider.Now()` reads the state's clock,
  which a `tick` transition advances.
* The Notifier (`client.Do` of the JSON POST built in `processStep`) is
  recorded in a `notifications` log; the environment chooses whether
  `http.NewRequestWithContext` and `client.Do` succeed via two booleans on
  the `fire` transition.
-/

namespace Flho

/-! ### Association lists (Go maps / sync.Map / genie store) -/

def lookupAssoc {α : Type} (m : List (String × α)) (k : String) : Option α :=
  match m with
  | [] => none
  | (k', v) :: rest => if k' = k then some v else lookupAssoc rest k

def setAssoc {α : Type} (m : List (String × α)) (k : String) (v : α) :
    List (String × α) :=
  match m with
  | [] => [(k, v)]
  | (k', v') :: rest =>
      if k' = k then (k, v) :: rest else (k', v') :: setAssoc rest k v

/-! ### Decimal integer formatting and parsing

Models Go's `strconv.Itoa` / `strconv.Atoi` and `fmt.Sprintf("step%v", index)`
on the non-negative integers that the engine actually stores.  `atoi`
returns 0 when the string is not a non-empty digit string, matching
`strconv.Atoi`'s behavior of returning a zero value together with the
error that `UpdateWorkflow` discards. -/

def digitChar (d : Nat) : Char :=
  match d with
  | 0 => '0' | 1 => '1' | 2 => '2' | 3 => '3' | 4 => '4'
  | 5 => '5' | 6 => '6' | 7 => '7' | 8 => '8' | _ => '9'

def digitVal (c : Char) : Nat :=
  match c with
  | '0' => 0 | '1' => 1 | '2' => 2 | '3' => 3 | '4' => 4
  | '5' => 5 | '6' => 6 | '7' => 7 | '8' => 8 | '9' => 9
  | _ => 0

def isDigitChar (c : Char) : Bool := '0' ≤ c && c ≤ '9'

/-- Digits of `n`, most significant first.  Structural recursion on a fuel
argument (always called with fuel `n + 1 > n`) so that the definition
reduces inside the kernel. -/
def natCharsFuel : Nat → Nat → List Char
  | 0, _ => []
  | fuel + 1, n =>
      if n < 10 then [digitChar n]
      else natCharsFuel fuel (n / 10) ++ [digitChar (n % 10)]

def natChars (n : Nat) : List Char := natCharsFuel (n + 1) n

def itoa (n : Nat) : String := ⟨natChars n⟩

def atoi (s : String) : Nat :=
  if s.data ≠ [] ∧ s.data.all isDigitChar then
    s.data.foldl (fun a c => a * 10 + digitVal c) 0
  else 0

/-! ### Data model

`workflow.Step`, `workflow.Workflow = []map[string]Step`,
`workflow.Workflows = map[string]Workflow`, and `service.Run`.
Durations and timestamps are `Nat` (nanosecond counts); `*time.Time`
fields are `Option Nat` (`none` = nil pointer). -/

structure Step where
  name : String
  retryAfter : Nat
  retryURL : String
deriving Repr, DecidableEq

/-- `workflow.Workflow`: a slice of one-entry `map[string]Step` step maps. -/
abbrev WorkflowDef : Type := List (List (String × Step))

/-- `workflow.Workflows`: map from workflow name to its step list.  An absent
name looks up to `none`, matching Go's nil map value. -/
abbrev Workflows : Type := List (String × WorkflowDef)

/-- `service.Run`.  `retryCancel context.CancelFunc` is a numeric token:
invoking the cancel function adds the token to the state's `cancelled`
set.  `endTime` is the `end` field (`end` is reserved in Lean). -/
structure Run where
  currStep : Nat
  failed : Bool
  workflowName : String
  retryCancel : Nat
  start : Option Nat
  endTime : Option Nat
deriving Repr, DecidableEq

/-- Run status as the spec derives it: Failed iff the `failed` flag is set,
Completed iff `end` is set and not failed, Ongoing otherwise. -/
inductive Status where
  | Ongoing
  | Completed
  | Failed
deriving Repr, DecidableEq

def Run.status (r : Run) : Status :=
  if r.failed then .Failed
  else if r.endTime.isSome then .Completed
  else .Ongoing

/-- A `go w.processStep(runCtx, index, runID, name)` statement whose
goroutine has not yet begun executing the body of `processStep`. -/
structure Watchdog where
  ctx : Nat
  index : Nat
  runID : String
  name : String
deriving Repr, DecidableEq

/-- A watchdog goroutine that has passed validation, written the store and
armed its ticker, and is now blocked in the `select`. -/
structure ArmedWatchdog where
  ctx : Nat
  index : Nat
  runID : String
  name : String
  armedAt : Nat
  retryAfter : Nat
  retryURL : String
deriving Repr, DecidableEq

/-- One `client.Do` invocation of the Notifier: the JSON payload built in
`processStep` (`workflow_name`, `workflow_step`, `workflow_run_id`). -/
structure Notification where
  workflowName : String
  workflowStep : String
  workflowRunID : String
deriving Repr, DecidableEq

instance {α β : Type} [DecidableEq α] [DecidableEq β] : DecidableEq (Except α β) :=
  fun a b =>
    match a, b with
    | .ok x, .ok y =>
        if h : x = y then isTrue (by rw [h]) else isFalse (fun hh => by cases hh; exact h rfl)
    | .error x, .error y =>
        if h : x = y then isTrue (by rw [h]) else isFalse (fun hh => by cases hh; exact h rfl)
    | .ok _, .error _ => isFalse (fun hh => by cases hh)
    | .error _, .ok _ => isFalse (fun hh => by cases hh)

/-- The whole engine: the `WorkflowService` fields that the claims touch
(`config`, `runs`, `store`) plus the cancellation / goroutine / clock
bookkeeping that makes the concurrent parts explicit. -/
structure EngineState where
  config : Workflows
  runs : List (String × Run)
  store : List (String × String)
  cancelled : List Nat
  nextCtx : Nat
  pending : List Watchdog
  armed : List ArmedWatchdog
  notifications : List Notification
  now : Nat
deriving Repr, DecidableEq

/-! ### Engine operations, translated line by line from `workflow.go` -/

/-- `InitiateWorkflow`: `index := 0`; fresh run ID (passed in, standing for
`uuidProvider.NewString()`); `context.WithCancel` (fresh token);
`start = now`; `runs.Store`; spawn `processStep(runCtx, 0, runID, name)`.
It does not write the genie store. -/
def initiateWorkflow (s : EngineState) (runID name : String) : EngineState :=
  let c := s.nextCtx
  let run : Run :=
    { currStep := 0, failed := false, workflowName := name,
      retryCancel := c, start := some s.now, endTime := none }
  { s with nextCtx := c + 1,
           runs := setAssoc s.runs runID run,
           pending := ⟨c, 0, runID, name⟩ :: s.pending }

/-- `cancelRetryCountdown`: `runs.Load`; on miss the
"run information missing" error; otherwise call `run.retryCancel()`
(token joins `cancelled`) and return the run. -/
def cancelRetryCountdown (s : EngineState) (runID : String) :
    Except String (Run × EngineState) :=
  match lookupAssoc s.runs runID with
  | none => .error "run information missing. Did a previous step fail?"
  | some run => .ok (run, { s with cancelled := run.retryCancel :: s.cancelled })

/-- `UpdateWorkflow`: genie `store.Get` (miss returns the
"no data found" error), `cancelRetryCountdown`, `strconv.Atoi` of the
stored index, fresh context, `currStep = cIdx + 1`, `runs.Store`, spawn
`processStep` for the incremented index.  An `error` result means the Go
function returned before mutating anything. -/
def updateWorkflow (s : EngineState) (runID : String) : Except String EngineState :=
  match lookupAssoc s.store runID with
  | none => .error ("no data found for run ID: " ++ runID)
  | some currentIdx =>
    match cancelRetryCountdown s runID with
    | .error e => .error e
    | .ok (run, s₁) =>
      let cIdx := atoi currentIdx
      let c := s₁.nextCtx
      let step := cIdx + 1
      let run' := { run with retryCancel := c, currStep := step }
      .ok { s₁ with nextCtx := c + 1,
                    runs := setAssoc s₁.runs runID run',
                    pending := ⟨c, step, runID, run.workflowName⟩ :: s₁.pending }

/-- `CompleteWorkflow`: `cancelRetryCountdown`, `end = now`, `runs.Store`. -/
def completeWorkflow (s : EngineState) (runID : String) : Except String EngineState :=
  match cancelRetryCountdown s runID with
  | .error e => .error e
  | .ok (run, s₁) =>
    .ok { s₁ with runs := setAssoc s₁.runs runID ({ run with endTime := some s₁.now }) }

/-- `markRunAsFailed`: `runs.Load`, set `failed = true` and `end = now`,
`runs.Store`.  The Go code type-asserts the loaded value without a check
and would panic on a missing run; runs are never removed from the map, so
that path is unreachable and the model leaves the state unchanged there. -/
def markRunAsFailed (s : EngineState) (runID : String) : EngineState :=
  match lookupAssoc s.runs runID with
  | none => s
  | some run =>
      let run' := { run with failed := true, endTime := some s.now }
      { s with runs := setAssoc s.runs runID run' }

/-- The prefix of `processStep` that the spawned goroutine runs before its
`select`: compute `step = "step" + index`, look the workflow up in the
config (`nil` slice / absent name and `len(workflow) <= index` exit after
a log), check `workflow[index][step]` exists, then `store.Set(runID,
strconv.Itoa(index))` and arm the ticker with `stepData.RetryAfter`.
Note the goroutine runs this prefix even if its context is already
cancelled: the context is only consulted in the `select`. -/
def processStepEnter (s : EngineState) (w : Watchdog) : EngineState :=
  let s₀ := { s with pending := s.pending.filter (fun v => v.ctx ≠ w.ctx) }
  let stepKey := "step" ++ itoa w.index
  match lookupAssoc s.config w.name with
  | none => s₀
  | some wf =>
      if wf.length ≤ w.index then s₀
      else
        let stepMap := wf.getD w.index []
        match lookupAssoc stepMap stepKey with
        | none => s₀
        | some stepData =>
            { s₀ with
              store := setAssoc s₀.store w.runID (itoa w.index),
              armed := ⟨w.ctx, w.index, w.runID, w.name, s₀.now,
                        stepData.retryAfter, stepData.retryURL⟩ :: s₀.armed }

/-- The ticker branch of the `select`: build the retry payload; if
`http.NewRequestWithContext` fails (`reqErr`), log and return without
calling the Notifier; otherwise `client.Do` is the Notifier invocation
(recorded), and if it fails (`doErr`) the code logs
"POST to retryURL unsuccessful" and returns WITHOUT `markRunAsFailed`;
only on success does `markRunAsFailed` run. -/
def fireWatchdog (s : EngineState) (a : ArmedWatchdog) (reqErr doErr : Bool) :
    EngineState :=
  let s₀ := { s with armed := s.armed.filter (fun b => b.ctx ≠ a.ctx) }
  if reqErr then s₀
  else
    let note : Notification := ⟨a.name, "step" ++ itoa a.index, a.runID⟩
    let s₁ := { s₀ with notifications := s₀.notifications ++ [note] }
    if doErr then s₁
    else markRunAsFailed s₁ a.runID

/-! ### The transition system

One transition per observable event.  Scheduling of goroutines and the
clock is left to the environment: any interleaving the Go runtime could
produce corresponds to some event sequence here. -/

inductive Event where
  /-- A caller invokes `InitiateWorkflow`; `runID` is the string returned
  by `uuidProvider.NewString()`.  The production provider returns globally
  unique UUIDs, so the transition requires the ID to be unused. -/
  | initiate (runID name : String)
  /-- A caller invokes `UpdateWorkflow`.  On an error return the state is
  unchanged (the Go function returns before mutating anything). -/
  | update (runID : String)
  /-- A caller invokes `CompleteWorkflow`; ditto on error. -/
  | complete (runID : String)
  /-- The spawned goroutine with context token `c` begins executing
  `processStep` (validation, `store.Set`, arming the ticker). -/
  | enter (c : Nat)
  /-- The armed goroutine with token `c` observes a ticker tick: enabled
  once the step's `RetryAfter` has elapsed on the clock and the context
  has not been cancelled.  `reqErr` / `doErr` are the environment's
  verdicts on `http.NewRequestWithContext` and `client.Do`. -/
  | fire (c : Nat) (reqErr doErr : Bool)
  /-- The armed goroutine with token `c` observes `ctx.Done()`:
  `ticker.Stop()` and return, with no other effect. -/
  | cancelExit (c : Nat)
  /-- The wall clock advances by `d`. -/
  | tick (d : Nat)
deriving Repr, DecidableEq

def stepE (s : EngineState) : Event → Option EngineState
  | .initiate runID name =>
      if lookupAssoc s.runs runID = none then
        some (initiateWorkflow s runID name)
      else none
  | .update runID =>
      some (match updateWorkflow s runID with | .ok s' => s' | .error _ => s)
  | .complete runID =>
      some (match completeWorkflow s runID with | .ok s' => s' | .error _ => s)
  | .enter c =>
      match s.pending.find? (fun w => w.ctx = c) with
      | some w => some (processStepEnter s w)
      | none => none
  | .fire c reqErr doErr =>
      match s.armed.find? (fun a => a.ctx = c) with
      | some a =>
          if c ∈ s.cancelled then none
          else if a.armedAt + a.retryAfter ≤ s.now then
            some (fireWatchdog s a reqErr doErr)
          else none
      | none => none
  | .cancelExit c =>
      match s.armed.find? (fun a => a.ctx = c) with
      | some _ =>
          if c ∈ s.cancelled then
            some { s with armed := s.armed.filter (fun a => a.ctx ≠ c) }
          else none
      | none => none
  | .tick d => some { s with now := s.now + d }

/-- The engine as `NewWorkflowService` builds it: the given workflow
config, empty run registry, empty genie store, no goroutines, clock 0. -/
def initState (cfg : Workflows) : EngineState :=
  { config := cfg, runs := [], store := [], cancelled := [], nextCtx := 0,
    pending := [], armed := [], notifications := [], now := 0 }

/-- Executions: `ReachFrom s s'` holds when some event sequence drives the
engine from `s` to `s'`. -/
inductive ReachFrom : EngineState → EngineState → Prop
  | refl (s : EngineState) : ReachFrom s s
  | tail {s t t' : EngineState} {e : Event} :
      ReachFrom s t → stepE t e = some t' → ReachFrom s t'

/-- States reachable from a freshly constructed service. -/
def Reach (cfg : Workflows) (s : EngineState) : Prop :=
  ReachFrom (initState cfg) s

/-! ### The engine invariant

Established at `initState` and preserved by every transition.  The clauses
formalise the spec's bookkeeping discipline: context tokens are allocated
fresh and never reused, at most one goroutine holds any token, every
goroutine belongs to a registered run, and a goroutine that is not yet
cancelled is the run's *current* watchdog — its index, workflow name and
cancel handle agree with the run record. -/

def tokensOf (s : EngineState) : List Nat :=
  s.pending.map Watchdog.ctx ++ s.armed.map ArmedWatchdog.ctx

structure Inv (s : EngineState) : Prop where
  fresh_runs : ∀ k r, lookupAssoc s.runs k = some r → r.retryCancel < s.nextCtx
  fresh_pending : ∀ w ∈ s.pending, w.ctx < s.nextCtx
  fresh_armed : ∀ a ∈ s.armed, a.ctx < s.nextCtx
  nodup_tok : (tokensOf s).Nodup
  run_pending : ∀ w ∈ s.pending, (lookupAssoc s.runs w.runID).isSome
  run_armed : ∀ a ∈ s.armed, (lookupAssoc s.runs a.runID).isSome
  corr_pending : ∀ w ∈ s.pending, w.ctx ∈ s.cancelled ∨
      ∃ r, lookupAssoc s.runs w.runID = some r ∧ r.retryCancel = w.ctx ∧
           r.currStep = w.index ∧ r.workflowName = w.name
  corr_armed : ∀ a ∈ s.armed, a.ctx ∈ s.cancelled ∨
      ∃ r, lookupAssoc s.runs a.runID = some r ∧ r.retryCancel = a.ctx ∧
           r.currStep = a.index ∧ r.workflowName = a.name
  store_runs : ∀ k v, lookupAssoc s.store k = some v → (lookupAssoc s.runs k).isSome

/-! ### Dead tokens stay dead

`NoTok c s`: no live goroutine (pending or armed) holds context token `c`,
and `c` is not a token the allocator could hand out again.  Once this
holds it holds forever, so a watchdog that has exited can never notify. -/

def NoTok (c : Nat) (s : EngineState) : Prop :=
  c ∉ tokensOf s ∧ c < s.nextCtx

/-! ### Concrete fixtures

Small configurations and executions used to evaluate the definitions on
explicit inputs. -/

def wStep0 : Step :=
  { name := "First Step", retryAfter := 50, retryURL := "http://client/retry0" }

def wStep1 : Step :=
  { name := "Second Step", retryAfter := 50, retryURL := "http://client/retry1" }

/-- A two-step workflow `"w"` with 50ns deadlines, as the YAML loader would
produce it. -/
def sampleCfg : Workflows := [("w", [[("step0", wStep0)], [("step1", wStep1)]])]

/-- Run `"r"` initiated for `"w"`: registered at step 0, watchdog (context
token 0) spawned. -/
def stInit : EngineState := initiateWorkflow (initState sampleCfg) "r" "w"

/-- The run record `stInit` holds for `"r"`. -/
def sampleRun : Run :=
  { currStep := 0, failed := false, workflowName := "w", retryCancel := 0,
    start := some 0, endTime := none }

/-- The watchdog has entered `processStep`: the store persists `"0"` and the
ticker is armed. -/
def stArmed : EngineState := processStepEnter stInit ⟨0, 0, "r", "w"⟩

/-- The armed-watchdog record live in `stArmed`. -/
def sampleArmed : ArmedWatchdog := ⟨0, 0, "r", "w", 0, 50, "http://client/retry0"⟩

/-- `UpdateWorkflow` called at `stArmed`: run advanced to step 1, token 0
cancelled, fresh token 1 installed, watchdog for step 1 spawned. -/
def stUpd : EngineState := (stepE stArmed (.update "r")).getD stArmed

/-- The second update's watchdog (token 1) enters: persists `"1"`. -/
def stUpdEnter : EngineState := (stepE stUpd (.enter 1)).getD stUpd

/-- A second `UpdateWorkflow` right after: the step counter advances again. -/
def stUpd2 : EngineState := (stepE stUpdEnter (.update "r")).getD stUpdEnter

/-- 50ns later: step 0's deadline has elapsed with no Update/Complete call. -/
def stLate : EngineState := (stepE stArmed (.tick 50)).getD stArmed

/-- The deadline elapsed and `client.Do` failed: the watchdog logged and
returned without `markRunAsFailed`. -/
def stNotifyErr : EngineState := (stepE stLate (.fire 0 false true)).getD stLate

/-- The deadline elapsed and the notification succeeded: the run is Failed. -/
def stFailed : EngineState := (stepE stLate (.fire 0 false false)).getD stLate

/-- 10ns after the run failed. -/
def stFailedLater : EngineState := (stepE stFailed (.tick 10)).getD stFailed

/-- `CompleteWorkflow` called on the already-Failed run. -/
def stOverwritten : EngineState :=
  (stepE stFailedLater (.complete "r")).getD stFailedLater

/-- `CompleteWorkflow` called in time (at `stArmed`): terminal-success. -/
def stDone : EngineState := (stepE stArmed (.complete "r")).getD stArmed

/-- `UpdateWorkflow` called on the Completed run `stDone`. -/
def stAfterUpd : EngineState := (stepE stDone (.update "r")).getD stDone

/-- The watchdog spawned by that Update (token 1, step 1) enters. -/
def stAfterEnter : EngineState := (stepE stAfterUpd (.enter 1)).getD stAfterUpd

/-- Step 1's deadline elapses on the Completed run. -/
def stAfterTick : EngineState := (stepE stAfterEnter (.tick 50)).getD stAfterEnter

/-- That watchdog fires successfully: the Completed run becomes Failed. -/
def stRegressed : EngineState := (stepE stAfterTick (.fire 1 false false)).getD stAfterTick

/-- A second fixture: single-step workflow `"v"` with a 20ns deadline. -/
def vStep : Step :=
  { name := "Only Step", retryAfter := 20, retryURL := "http://cb/v" }

def cfg2 : Workflows := [("v", [[("step0", vStep)]])]

def quInit : EngineState := initiateWorkflow (initState cfg2) "q" "v"

/-- The run record `quInit` holds for `"q"`. -/
def quRun : Run :=
  { currStep := 0, failed := false, workflowName := "v", retryCancel := 0,
    start := some 0, endTime := none }

def quArmed : EngineState := processStepEnter quInit ⟨0, 0, "q", "v"⟩

def quLate : EngineState := (stepE quArmed (.tick 20)).getD quArmed

/-- The `"v"` deadline elapsed and `client.Do` failed. -/
def quNotifyErr : EngineState := (stepE quLate (.fire 0 false true)).getD quLate

/-- The `"v"` deadline elapsed and the notification succeeded. -/
def quFailed : EngineState := (stepE quLate (.fire 0 false false)).getD quLate

/-- A run initiated for a workflow name absent from the definition store. -/
def stBadName : EngineState := initiateWorkflow (initState sampleCfg) "x" "nope"

theorem lookupAssoc_setAssoc_self {α : Type} (m : List (String × α)) (k : String) (v : α) :
    lookupAssoc (setAssoc m k v) k = some v := by
  induction m with
  | nil => simp [setAssoc, lookupAssoc]
  | cons hd tl ih =>
      obtain ⟨k', v'⟩ := hd
      by_cases h : k' = k
      · simp [setAssoc, h, lookupAssoc]
      · simp [setAssoc, h, lookupAssoc, ih]

theorem lookupAssoc_setAssoc_ne {α : Type} (m : List (String × α)) (k k' : String) (v : α)
    (h : k ≠ k') : lookupAssoc (setAssoc m k v) k' = lookupAssoc m k' := by
  induction m with
  | nil => simp [setAssoc, lookupAssoc, h]
  | cons hd tl ih =>
      obtain ⟨k₀, v₀⟩ := hd
      by_cases h₀ : k₀ = k
      · subst h₀
        simp [setAssoc, lookupAssoc, h]
      · by_cases h₁ : k₀ = k'
        · simp [setAssoc, h₀, lookupAssoc, h₁, Ne.symm h]
        · simp [setAssoc, h₀, lookupAssoc, h₁, ih]

theorem lookupAssoc_setAssoc_isSome {α : Type} (m : List (String × α)) (k k' : String)
    (v : α) (h : (lookupAssoc m k').isSome) :
    (lookupAssoc (setAssoc m k v) k').isSome := by
  by_cases hk : k = k'
  · subst hk
    simp [lookupAssoc_setAssoc_self]
  · rwa [lookupAssoc_setAssoc_ne _ _ _ _ hk]

theorem digitVal_digitChar (d : Nat) (h : d < 10) : digitVal (digitChar d) = d := by
  interval_cases d <;> rfl

theorem isDigitChar_digitChar (d : Nat) : isDigitChar (digitChar d) = true := by
  match d with
  | 0 | 1 | 2 | 3 | 4 | 5 | 6 | 7 | 8 => rfl
  | n + 9 => rfl

theorem natCharsFuel_ne_nil (fuel n : Nat) (h : n < fuel) : natCharsFuel fuel n ≠ [] := by
  cases fuel with
  | zero => omega
  | succ f =>
      rw [natCharsFuel]
      split
      · simp
      · simp

theorem natChars_ne_nil (n : Nat) : natChars n ≠ [] :=
  natCharsFuel_ne_nil (n + 1) n (Nat.lt_succ_self n)

theorem natCharsFuel_all_digit :
    ∀ fuel n, (natCharsFuel fuel n).all isDigitChar = true := by
  intro fuel
  induction fuel with
  | zero => intro n; rfl
  | succ f ih =>
      intro n
      rw [natCharsFuel]
      split
      · simp [isDigitChar_digitChar]
      · simp only [List.all_append, ih (n / 10), List.all_cons, List.all_nil,
          isDigitChar_digitChar, Bool.and_self, Bool.true_and]

theorem natChars_all_digit (n : Nat) : (natChars n).all isDigitChar = true :=
  natCharsFuel_all_digit (n + 1) n

theorem foldl_natCharsFuel : ∀ fuel n, n < fuel →
    (natCharsFuel fuel n).foldl (fun a c => a * 10 + digitVal c) 0 = n := by
  intro fuel
  induction fuel with
  | zero => intro n h; omega
  | succ f ih =>
      intro n h
      rw [natCharsFuel]
      split
      · rename_i h10
        simp [List.foldl, digitVal_digitChar n h10]
      · rename_i h10
        have hlt : n / 10 < f := by
          have : n / 10 < n := Nat.div_lt_self (by omega) (by omega)
          omega
        rw [List.foldl_append, ih (n / 10) hlt]
        simp only [List.foldl]
        rw [digitVal_digitChar (n % 10) (Nat.mod_lt _ (by omega))]
        omega

theorem foldl_natChars (n : Nat) :
    (natChars n).foldl (fun a c => a * 10 + digitVal c) 0 = n :=
  foldl_natCharsFuel (n + 1) n (Nat.lt_succ_self n)

theorem atoi_itoa (n : Nat) : atoi (itoa n) = n := by
  unfold atoi itoa
  rw [if_pos]
  · exact foldl_natChars n
  · exact ⟨natChars_ne_nil n, natChars_all_digit n⟩

theorem ReachFrom.trans {s t u : EngineState}
    (h₁ : ReachFrom s t) (h₂ : ReachFrom t u) : ReachFrom s u := by
  induction h₂ with
  | refl => exact h₁
  | tail _ hstep ih => exact .tail ih hstep

/-! ### Frame lemmas: which state components each operation leaves alone -/

theorem processStepEnter_config (s : EngineState) (w : Watchdog) :
    (processStepEnter s w).config = s.config := by
  simp only [processStepEnter]
  split
  · rfl
  split
  · rfl
  split <;> rfl

theorem processStepEnter_runs (s : EngineState) (w : Watchdog) :
    (processStepEnter s w).runs = s.runs := by
  simp only [processStepEnter]
  split
  · rfl
  split
  · rfl
  split <;> rfl

theorem processStepEnter_cancelled (s : EngineState) (w : Watchdog) :
    (processStepEnter s w).cancelled = s.cancelled := by
  simp only [processStepEnter]
  split
  · rfl
  split
  · rfl
  split <;> rfl

theorem processStepEnter_nextCtx (s : EngineState) (w : Watchdog) :
    (processStepEnter s w).nextCtx = s.nextCtx := by
  simp only [processStepEnter]
  split
  · rfl
  split
  · rfl
  split <;> rfl

theorem processStepEnter_notifications (s : EngineState) (w : Watchdog) :
    (processStepEnter s w).notifications = s.notifications := by
  simp only [processStepEnter]
  split
  · rfl
  split
  · rfl
  split <;> rfl

theorem processStepEnter_now (s : EngineState) (w : Watchdog) :
    (processStepEnter s w).now = s.now := by
  simp only [processStepEnter]
  split
  · rfl
  split
  · rfl
  split <;> rfl

theorem processStepEnter_pending (s : EngineState) (w : Watchdog) :
    (processStepEnter s w).pending = s.pending.filter (fun v => v.ctx ≠ w.ctx) := by
  simp only [processStepEnter]
  split
  · rfl
  split
  · rfl
  split <;> rfl

theorem markRunAsFailed_frame (s : EngineState) (runID : String) :
    (markRunAsFailed s runID).config = s.config ∧
    (markRunAsFailed s runID).store = s.store ∧
    (markRunAsFailed s runID).cancelled = s.cancelled ∧
    (markRunAsFailed s runID).nextCtx = s.nextCtx ∧
    (markRunAsFailed s runID).pending = s.pending ∧
    (markRunAsFailed s runID).armed = s.armed ∧
    (markRunAsFailed s runID).notifications = s.notifications ∧
    (markRunAsFailed s runID).now = s.now := by
  unfold markRunAsFailed
  split <;> simp

theorem fireWatchdog_frame (s : EngineState) (a : ArmedWatchdog) (reqErr doErr : Bool) :
    (fireWatchdog s a reqErr doErr).config = s.config ∧
    (fireWatchdog s a reqErr doErr).store = s.store ∧
    (fireWatchdog s a reqErr doErr).cancelled = s.cancelled ∧
    (fireWatchdog s a reqErr doErr).nextCtx = s.nextCtx ∧
    (fireWatchdog s a reqErr doErr).pending = s.pending ∧
    (fireWatchdog s a reqErr doErr).now = s.now := by
  unfold fireWatchdog
  split
  · simp
  · split
    · simp
    · have h := markRunAsFailed_frame
        { s with
          armed := s.armed.filter (fun b => b.ctx ≠ a.ctx),
          notifications := s.notifications ++
            [⟨a.name, "step" ++ itoa a.index, a.runID⟩] } a.runID
      simp only at h
      tauto

theorem updateWorkflow_ok {s s' : EngineState} {runID : String}
    (h : updateWorkflow s runID = .ok s') :
    ∃ currentIdx run,
      lookupAssoc s.store runID = some currentIdx ∧
      lookupAssoc s.runs runID = some run ∧
      s' = { s with
              cancelled := run.retryCancel :: s.cancelled,
              nextCtx := s.nextCtx + 1,
              runs := setAssoc s.runs runID
                ({ run with retryCancel := s.nextCtx,
                            currStep := atoi currentIdx + 1 }),
              pending := ⟨s.nextCtx, atoi currentIdx + 1, runID,
                          run.workflowName⟩ :: s.pending } := by
  unfold updateWorkflow at h
  cases hstore : lookupAssoc s.store runID with
  | none =>
      rw [hstore] at h
      exact absurd h (by simp)
  | some currentIdx =>
      rw [hstore] at h
      unfold cancelRetryCountdown at h
      cases hrun : lookupAssoc s.runs runID with
      | none =>
          rw [hrun] at h
          exact absurd h (by simp)
      | some run =>
          rw [hrun] at h
          refine ⟨currentIdx, run, rfl, rfl, ?_⟩
          simp only [Except.ok.injEq] at h
          exact h.symm

theorem completeWorkflow_ok {s s' : EngineState} {runID : String}
    (h : completeWorkflow s runID = .ok s') :
    ∃ run,
      lookupAssoc s.runs runID = some run ∧
      s' = { s with
              cancelled := run.retryCancel :: s.cancelled,
              runs := setAssoc s.runs runID ({ run with endTime := some s.now }) } := by
  unfold completeWorkflow cancelRetryCountdown at h
  cases hrun : lookupAssoc s.runs runID with
  | none =>
      rw [hrun] at h
      exact absurd h (by simp)
  | some run =>
      rw [hrun] at h
      refine ⟨run, rfl, ?_⟩
      simp only [Except.ok.injEq] at h
      exact h.symm

/-! ### Cancellation is monotone: no transition ever un-cancels a token -/

theorem cancelled_mono {s s' : EngineState} {e : Event}
    (h : stepE s e = some s') : ∀ c ∈ s.cancelled, c ∈ s'.cancelled := by
  intro c hc
  cases e with
  | initiate runID name =>
      simp only [stepE] at h
      split at h
      · cases h
        exact hc
      · cases h
  | update runID =>
      simp only [stepE, Option.some.injEq] at h
      subst h
      cases hupd : updateWorkflow s runID with
      | ok s₁ =>
          obtain ⟨ci, run, _, _, hs⟩ := updateWorkflow_ok hupd
          simp [hupd, hs, hc]
      | error msg => simp [hupd, hc]
  | complete runID =>
      simp only [stepE, Option.some.injEq] at h
      subst h
      cases hcmp : completeWorkflow s runID with
      | ok s₁ =>
          obtain ⟨run, _, hs⟩ := completeWorkflow_ok hcmp
          simp [hcmp, hs, hc]
      | error msg => simp [hcmp, hc]
  | enter c' =>
      simp only [stepE] at h
      split at h
      · rename_i w hw
        cases h
        rw [processStepEnter_cancelled]
        exact hc
      · cases h
  | fire c' reqErr doErr =>
      simp only [stepE] at h
      split at h
      · rename_i a ha
        split at h
        · cases h
        · split at h
          · cases h
            rw [(fireWatchdog_frame s a reqErr doErr).2.2.1]
            exact hc
          · cases h
      · cases h
  | cancelExit c' =>
      simp only [stepE] at h
      split at h
      · split at h
        · cases h
          exact hc
        · cases h
      · cases h
  | tick d =>
      simp only [stepE, Option.some.injEq] at h
      subst h
      exact hc

theorem cancelled_mono_reach {s s' : EngineState}
    (h : ReachFrom s s') : ∀ c ∈ s.cancelled, c ∈ s'.cancelled := by
  induction h with
  | refl => exact fun _ hc => hc
  | tail _ hstep ih => exact fun c hc => cancelled_mono hstep c (ih c hc)

/-- A watchdog whose context token is cancelled can never take the ticker
branch: the `fire` transition is disabled. -/
theorem fire_disabled_of_cancelled {s : EngineState} {c : Nat}
    (h : c ∈ s.cancelled) (reqErr doErr : Bool) :
    stepE s (.fire c reqErr doErr) = none := by
  simp only [stepE]
  split
  · simp [h]
  · rfl

theorem Inv.tok_lt {s : EngineState} (hs : Inv s) :
    ∀ t ∈ tokensOf s, t < s.nextCtx := by
  intro t ht
  rcases List.mem_append.mp ht with h | h
  · obtain ⟨w, hw, rfl⟩ := List.mem_map.mp h
    exact hs.fresh_pending w hw
  · obtain ⟨a, ha, rfl⟩ := List.mem_map.mp h
    exact hs.fresh_armed a ha

theorem inv_init (cfg : Workflows) : Inv (initState cfg) := by
  refine ⟨?_, ?_, ?_, ?_, ?_, ?_, ?_, ?_, ?_⟩ <;> simp [initState, lookupAssoc, tokensOf]

/-! Commutation of `map ctx` with the token filters. -/

theorem map_ctx_filter_pending (l : List Watchdog) (c : Nat) :
    (l.filter (fun v => v.ctx ≠ c)).map Watchdog.ctx
      = (l.map Watchdog.ctx).filter (fun t => t ≠ c) := by
  induction l with
  | nil => rfl
  | cons hd tl ih => by_cases h : hd.ctx = c <;> simpa [h] using ih

theorem map_ctx_filter_armed (l : List ArmedWatchdog) (c : Nat) :
    (l.filter (fun b => b.ctx ≠ c)).map ArmedWatchdog.ctx
      = (l.map ArmedWatchdog.ctx).filter (fun t => t ≠ c) := by
  induction l with
  | nil => rfl
  | cons hd tl ih => by_cases h : hd.ctx = c <;> simpa [h] using ih

theorem nodup_filter_move (P A : List Nat) (c : Nat)
    (h : (P ++ A).Nodup) (hc : c ∈ P) :
    (P.filter (fun t => t ≠ c) ++ c :: A).Nodup := by
  rw [List.nodup_append] at h ⊢
  obtain ⟨hP, hA, hdisj⟩ := h
  refine ⟨hP.filter _, ?_, ?_⟩
  · exact List.nodup_cons.mpr ⟨fun hcA => hdisj hc hcA, hA⟩
  · intro t htP' htcA
    have htP : t ∈ P := List.mem_of_mem_filter htP'
    have htne : t ≠ c := by
      have := List.of_mem_filter htP'
      simpa using this
    rcases List.mem_cons.mp htcA with h' | h'
    · exact htne h'
    · exact hdisj htP h'

theorem inv_initiate {s : EngineState} (hs : Inv s) (runID name : String)
    (hnone : lookupAssoc s.runs runID = none) :
    Inv (initiateWorkflow s runID name) := by
  simp only [initiateWorkflow]
  constructor
  case fresh_runs =>
    intro k r hk
    by_cases hkr : runID = k
    · subst hkr
      rw [lookupAssoc_setAssoc_self] at hk
      cases hk
      exact Nat.lt_succ_self _
    · rw [lookupAssoc_setAssoc_ne _ _ _ _ hkr] at hk
      exact Nat.lt_succ_of_lt (hs.fresh_runs k r hk)
  case fresh_pending =>
    intro w hw
    rcases List.mem_cons.mp hw with rfl | hw
    · exact Nat.lt_succ_self _
    · exact Nat.lt_succ_of_lt (hs.fresh_pending w hw)
  case fresh_armed =>
    intro a ha
    exact Nat.lt_succ_of_lt (hs.fresh_armed a ha)
  case nodup_tok =>
    show (s.nextCtx :: tokensOf s).Nodup
    refine List.nodup_cons.mpr ⟨?_, hs.nodup_tok⟩
    intro hmem
    exact absurd (hs.tok_lt _ hmem) (lt_irrefl _)
  case run_pending =>
    intro w hw
    rcases List.mem_cons.mp hw with rfl | hw
    · simp [lookupAssoc_setAssoc_self]
    · exact lookupAssoc_setAssoc_isSome _ _ _ _ (hs.run_pending w hw)
  case run_armed =>
    intro a ha
    exact lookupAssoc_setAssoc_isSome _ _ _ _ (hs.run_armed a ha)
  case corr_pending =>
    intro w hw
    rcases List.mem_cons.mp hw with rfl | hw
    · right
      exact ⟨_, lookupAssoc_setAssoc_self _ _ _, rfl, rfl, rfl⟩
    · rcases hs.corr_pending w hw with hc | ⟨r, hr, h₁, h₂, h₃⟩
      · exact Or.inl hc
      · right
        by_cases hkr : runID = w.runID
        · rw [← hkr, hnone] at hr
          cases hr
        · exact ⟨r, by rw [lookupAssoc_setAssoc_ne _ _ _ _ hkr]; exact hr, h₁, h₂, h₃⟩
  case corr_armed =>
    intro a ha
    rcases hs.corr_armed a ha with hc | ⟨r, hr, h₁, h₂, h₃⟩
    · exact Or.inl hc
    · right
      by_cases hkr : runID = a.runID
      · rw [← hkr, hnone] at hr
        cases hr
      · exact ⟨r, by rw [lookupAssoc_setAssoc_ne _ _ _ _ hkr]; exact hr, h₁, h₂, h₃⟩
  case store_runs =>
    intro k v hk
    exact lookupAssoc_setAssoc_isSome _ _ _ _ (hs.store_runs k v hk)

theorem inv_update {s s' : EngineState} {runID : String} (hs : Inv s)
    (h : updateWorkflow s runID = .ok s') : Inv s' := by
  obtain ⟨currentIdx, run, hstore, hrun, rfl⟩ := updateWorkflow_ok h
  constructor
  case fresh_runs =>
    intro k r hk
    by_cases hkr : runID = k
    · subst hkr
      rw [lookupAssoc_setAssoc_self] at hk
      cases hk
      exact Nat.lt_succ_self _
    · rw [lookupAssoc_setAssoc_ne _ _ _ _ hkr] at hk
      exact Nat.lt_succ_of_lt (hs.fresh_runs k r hk)
  case fresh_pending =>
    intro w hw
    rcases List.mem_cons.mp hw with rfl | hw
    · exact Nat.lt_succ_self _
    · exact Nat.lt_succ_of_lt (hs.fresh_pending w hw)
  case fresh_armed =>
    intro a ha
    exact Nat.lt_succ_of_lt (hs.fresh_armed a ha)
  case nodup_tok =>
    show (s.nextCtx :: tokensOf s).Nodup
    refine List.nodup_cons.mpr ⟨?_, hs.nodup_tok⟩
    intro hmem
    exact absurd (hs.tok_lt _ hmem) (lt_irrefl _)
  case run_pending =>
    intro w hw
    rcases List.mem_cons.mp hw with rfl | hw
    · simp [lookupAssoc_setAssoc_self]
    · exact lookupAssoc_setAssoc_isSome _ _ _ _ (hs.run_pending w hw)
  case run_armed =>
    intro a ha
    exact lookupAssoc_setAssoc_isSome _ _ _ _ (hs.run_armed a ha)
  case corr_pending =>
    intro w hw
    rcases List.mem_cons.mp hw with rfl | hw
    · right
      exact ⟨_, lookupAssoc_setAssoc_self _ _ _, rfl, rfl, rfl⟩
    · rcases hs.corr_pending w hw with hc | ⟨r, hr, h₁, h₂, h₃⟩
      · exact Or.inl (List.mem_cons_of_mem _ hc)
      · by_cases hkr : runID = w.runID
        · left
          rw [← hkr, hrun] at hr
          cases hr
          rw [← h₁]
          exact List.mem_cons_self _ _
        · right
          exact ⟨r, by rw [lookupAssoc_setAssoc_ne _ _ _ _ hkr]; exact hr, h₁, h₂, h₃⟩
  case corr_armed =>
    intro a ha
    rcases hs.corr_armed a ha with hc | ⟨r, hr, h₁, h₂, h₃⟩
    · exact Or.inl (List.mem_cons_of_mem _ hc)
    · by_cases hkr : runID = a.runID
      · left
        rw [← hkr, hrun] at hr
        cases hr
        rw [← h₁]
        exact List.mem_cons_self _ _
      · right
        exact ⟨r, by rw [lookupAssoc_setAssoc_ne _ _ _ _ hkr]; exact hr, h₁, h₂, h₃⟩
  case store_runs =>
    intro k v hk
    exact lookupAssoc_setAssoc_isSome _ _ _ _ (hs.store_runs k v hk)

theorem inv_complete {s s' : EngineState} {runID : String} (hs : Inv s)
    (h : completeWorkflow s runID = .ok s') : Inv s' := by
  obtain ⟨run, hrun, rfl⟩ := completeWorkflow_ok h
  constructor
  case fresh_runs =>
    intro k r hk
    by_cases hkr : runID = k
    · subst hkr
      rw [lookupAssoc_setAssoc_self] at hk
      cases hk
      exact hs.fresh_runs _ run hrun
    · rw [lookupAssoc_setAssoc_ne _ _ _ _ hkr] at hk
      exact hs.fresh_runs k r hk
  case fresh_pending => exact hs.fresh_pending
  case fresh_armed => exact hs.fresh_armed
  case nodup_tok => exact hs.nodup_tok
  case run_pending =>
    intro w hw
    exact lookupAssoc_setAssoc_isSome _ _ _ _ (hs.run_pending w hw)
  case run_armed =>
    intro a ha
    exact lookupAssoc_setAssoc_isSome _ _ _ _ (hs.run_armed a ha)
  case corr_pending =>
    intro w hw
    rcases hs.corr_pending w hw with hc | ⟨r, hr, h₁, h₂, h₃⟩
    · exact Or.inl (List.mem_cons_of_mem _ hc)
    · by_cases hkr : runID = w.runID
      · right
        rw [← hkr, hrun] at hr
        cases hr
        refine ⟨{ run with endTime := some s.now }, ?_, h₁, h₂, h₃⟩
        rw [← hkr]
        exact lookupAssoc_setAssoc_self _ _ _
      · right
        exact ⟨r, by rw [lookupAssoc_setAssoc_ne _ _ _ _ hkr]; exact hr, h₁, h₂, h₃⟩
  case corr_armed =>
    intro a ha
    rcases hs.corr_armed a ha with hc | ⟨r, hr, h₁, h₂, h₃⟩
    · exact Or.inl (List.mem_cons_of_mem _ hc)
    · by_cases hkr : runID = a.runID
      · right
        rw [← hkr, hrun] at hr
        cases hr
        refine ⟨{ run with endTime := some s.now }, ?_, h₁, h₂, h₃⟩
        rw [← hkr]
        exact lookupAssoc_setAssoc_self _ _ _
      · right
        exact ⟨r, by rw [lookupAssoc_setAssoc_ne _ _ _ _ hkr]; exact hr, h₁, h₂, h₃⟩
  case store_runs =>
    intro k v hk
    exact lookupAssoc_setAssoc_isSome _ _ _ _ (hs.store_runs k v hk)

theorem inv_tick {s : EngineState} (hs : Inv s) (d : Nat) :
    Inv { s with now := s.now + d } := by
  obtain ⟨h₁, h₂, h₃, h₄, h₅, h₆, h₇, h₈, h₉⟩ := hs
  exact ⟨h₁, h₂, h₃, h₄, h₅, h₆, h₇, h₈, h₉⟩

theorem inv_drop_pending {s : EngineState} (hs : Inv s) (c : Nat) :
    Inv { s with pending := s.pending.filter (fun v => v.ctx ≠ c) } := by
  obtain ⟨h₁, h₂, h₃, h₄, h₅, h₆, h₇, h₈, h₉⟩ := hs
  refine ⟨h₁, ?_, h₃, ?_, ?_, h₆, ?_, h₈, h₉⟩
  · intro w hw
    exact h₂ w (List.mem_of_mem_filter hw)
  · have hsub : (tokensOf { s with pending := s.pending.filter (fun v => v.ctx ≠ c) }).Sublist
        (tokensOf s) := by
      unfold tokensOf
      simp only
      rw [map_ctx_filter_pending]
      exact (List.filter_sublist _).append_right _
    exact h₄.sublist hsub
  · intro w hw
    exact h₅ w (List.mem_of_mem_filter hw)
  · intro w hw
    exact h₇ w (List.mem_of_mem_filter hw)

theorem inv_arm {s : EngineState} (hs : Inv s) (w : Watchdog) (hw : w ∈ s.pending)
    (stepData : Step) :
    Inv { s with pending := s.pending.filter (fun v => v.ctx ≠ w.ctx),
                 store := setAssoc s.store w.runID (itoa w.index),
                 armed := ⟨w.ctx, w.index, w.runID, w.name, s.now,
                           stepData.retryAfter, stepData.retryURL⟩ :: s.armed } := by
  constructor
  case fresh_runs => exact hs.fresh_runs
  case fresh_pending =>
    intro v hv
    exact hs.fresh_pending v (List.mem_of_mem_filter hv)
  case fresh_armed =>
    intro a ha
    rcases List.mem_cons.mp ha with rfl | ha
    · exact hs.fresh_pending w hw
    · exact hs.fresh_armed a ha
  case nodup_tok =>
    show ((s.pending.filter (fun v => v.ctx ≠ w.ctx)).map Watchdog.ctx ++
      w.ctx :: s.armed.map ArmedWatchdog.ctx).Nodup
    rw [map_ctx_filter_pending]
    exact nodup_filter_move _ _ _ hs.nodup_tok
      (List.mem_map.mpr ⟨w, hw, rfl⟩)
  case run_pending =>
    intro v hv
    exact hs.run_pending v (List.mem_of_mem_filter hv)
  case run_armed =>
    intro a ha
    rcases List.mem_cons.mp ha with rfl | ha
    · exact hs.run_pending w hw
    · exact hs.run_armed a ha
  case corr_pending =>
    intro v hv
    exact hs.corr_pending v (List.mem_of_mem_filter hv)
  case corr_armed =>
    intro a ha
    rcases List.mem_cons.mp ha with rfl | ha
    · exact hs.corr_pending w hw
    · exact hs.corr_armed a ha
  case store_runs =>
    intro k v hk
    by_cases hkr : w.runID = k
    · subst hkr
      exact hs.run_pending w hw
    · rw [lookupAssoc_setAssoc_ne _ _ _ _ hkr] at hk
      exact hs.store_runs k v hk

theorem inv_enter {s : EngineState} (hs : Inv s) (w : Watchdog) (hw : w ∈ s.pending) :
    Inv (processStepEnter s w) := by
  simp only [processStepEnter]
  split
  · exact inv_drop_pending hs w.ctx
  split
  · exact inv_drop_pending hs w.ctx
  split
  · exact inv_drop_pending hs w.ctx
  · exact inv_arm hs w hw _

theorem inv_notifications {s : EngineState} (hs : Inv s) (l : List Notification) :
    Inv { s with notifications := l } := by
  obtain ⟨h₁, h₂, h₃, h₄, h₅, h₆, h₇, h₈, h₉⟩ := hs
  exact ⟨h₁, h₂, h₃, h₄, h₅, h₆, h₇, h₈, h₉⟩

theorem inv_mark {s : EngineState} (hs : Inv s) (runID : String) :
    Inv (markRunAsFailed s runID) := by
  unfold markRunAsFailed
  split
  · exact hs
  · rename_i run hrun
    constructor
    case fresh_runs =>
      intro k r hk
      by_cases hkr : runID = k
      · subst hkr
        rw [lookupAssoc_setAssoc_self] at hk
        cases hk
        exact hs.fresh_runs _ run hrun
      · rw [lookupAssoc_setAssoc_ne _ _ _ _ hkr] at hk
        exact hs.fresh_runs k r hk
    case fresh_pending => exact hs.fresh_pending
    case fresh_armed => exact hs.fresh_armed
    case nodup_tok => exact hs.nodup_tok
    case run_pending =>
      intro v hv
      exact lookupAssoc_setAssoc_isSome _ _ _ _ (hs.run_pending v hv)
    case run_armed =>
      intro a ha
      exact lookupAssoc_setAssoc_isSome _ _ _ _ (hs.run_armed a ha)
    case corr_pending =>
      intro v hv
      rcases hs.corr_pending v hv with hc | ⟨r, hr, hf₁, hf₂, hf₃⟩
      · exact Or.inl hc
      · by_cases hkr : runID = v.runID
        · right
          rw [← hkr, hrun] at hr
          cases hr
          refine ⟨{ run with failed := true, endTime := some s.now }, ?_, hf₁, hf₂, hf₃⟩
          rw [← hkr]
          exact lookupAssoc_setAssoc_self _ _ _
        · right
          exact ⟨r, by rw [lookupAssoc_setAssoc_ne _ _ _ _ hkr]; exact hr, hf₁, hf₂, hf₃⟩
    case corr_armed =>
      intro a ha
      rcases hs.corr_armed a ha with hc | ⟨r, hr, hf₁, hf₂, hf₃⟩
      · exact Or.inl hc
      · by_cases hkr : runID = a.runID
        · right
          rw [← hkr, hrun] at hr
          cases hr
          refine ⟨{ run with failed := true, endTime := some s.now }, ?_, hf₁, hf₂, hf₃⟩
          rw [← hkr]
          exact lookupAssoc_setAssoc_self _ _ _
        · right
          exact ⟨r, by rw [lookupAssoc_setAssoc_ne _ _ _ _ hkr]; exact hr, hf₁, hf₂, hf₃⟩
    case store_runs =>
      intro k v hk
      exact lookupAssoc_setAssoc_isSome _ _ _ _ (hs.store_runs k v hk)

theorem inv_cancelExit {s : EngineState} (hs : Inv s) (c : Nat) :
    Inv { s with armed := s.armed.filter (fun a => a.ctx ≠ c) } := by
  obtain ⟨h₁, h₂, h₃, h₄, h₅, h₆, h₇, h₈, h₉⟩ := hs
  refine ⟨h₁, h₂, ?_, ?_, h₅, ?_, h₇, ?_, h₉⟩
  · intro a ha
    exact h₃ a (List.mem_of_mem_filter ha)
  · have hsub : (tokensOf { s with armed := s.armed.filter (fun a => a.ctx ≠ c) }).Sublist
        (tokensOf s) := by
      unfold tokensOf
      simp only
      rw [map_ctx_filter_armed]
      exact (List.filter_sublist _).append_left _
    exact h₄.sublist hsub
  · intro a ha
    exact h₆ a (List.mem_of_mem_filter ha)
  · intro a ha
    exact h₈ a (List.mem_of_mem_filter ha)

theorem inv_fire {s : EngineState} (hs : Inv s) (a : ArmedWatchdog) (reqErr doErr : Bool) :
    Inv (fireWatchdog s a reqErr doErr) := by
  unfold fireWatchdog
  split
  · exact inv_cancelExit hs a.ctx
  · split
    · exact inv_notifications (inv_cancelExit hs a.ctx) _
    · exact inv_mark (inv_notifications (inv_cancelExit hs a.ctx) _) _

/-- The invariant is preserved by every transition. -/
theorem inv_step {s s' : EngineState} {e : Event} (hs : Inv s)
    (h : stepE s e = some s') : Inv s' := by
  cases e with
  | initiate runID name =>
      simp only [stepE] at h
      split at h
      · rename_i hnone
        cases h
        exact inv_initiate hs runID name hnone
      · cases h
  | update runID =>
      simp only [stepE, Option.some.injEq] at h
      subst h
      cases hupd : updateWorkflow s runID with
      | ok s₁ => simpa [hupd] using inv_update hs hupd
      | error msg => simpa [hupd] using hs
  | complete runID =>
      simp only [stepE, Option.some.injEq] at h
      subst h
      cases hcmp : completeWorkflow s runID with
      | ok s₁ => simpa [hcmp] using inv_complete hs hcmp
      | error msg => simpa [hcmp] using hs
  | enter c =>
      simp only [stepE] at h
      split at h
      · rename_i w hw
        cases h
        exact inv_enter hs w (List.mem_of_find?_eq_some hw)
      · cases h
  | fire c reqErr doErr =>
      simp only [stepE] at h
      split at h
      · rename_i a ha
        split at h
        · cases h
        · split at h
          · cases h
            exact inv_fire hs a reqErr doErr
          · cases h
      · cases h
  | cancelExit c =>
      simp only [stepE] at h
      split at h
      · split at h
        · cases h
          exact inv_cancelExit hs c
        · cases h
      · cases h
  | tick d =>
      simp only [stepE, Option.some.injEq] at h
      subst h
      exact inv_tick hs d

/-- Every state reachable from a freshly constructed engine satisfies the
invariant. -/
theorem inv_reach {cfg : Workflows} {s : EngineState} (h : Reach cfg s) : Inv s := by
  induction h with
  | refl => exact inv_init cfg
  | tail _ hstep ih => exact inv_step ih hstep

theorem fireWatchdog_armed (s : EngineState) (a : ArmedWatchdog) (reqErr doErr : Bool) :
    (fireWatchdog s a reqErr doErr).armed = s.armed.filter (fun b => b.ctx ≠ a.ctx) := by
  unfold fireWatchdog
  split
  · rfl
  · split
    · rfl
    · have h := markRunAsFailed_frame
        { s with
          armed := s.armed.filter (fun b => b.ctx ≠ a.ctx),
          notifications := s.notifications ++
            [⟨a.name, "step" ++ itoa a.index, a.runID⟩] } a.runID
      exact h.2.2.2.2.2.1

/-- One transition can only remove live tokens or add the fresh `nextCtx`. -/
theorem tokens_step {s s' : EngineState} {e : Event} (h : stepE s e = some s') :
    (∀ t ∈ tokensOf s', t ∈ tokensOf s ∨ t = s.nextCtx) ∧ s.nextCtx ≤ s'.nextCtx := by
  cases e with
  | initiate runID name =>
      simp only [stepE] at h
      split at h
      · cases h
        constructor
        · intro t ht
          rcases List.mem_cons.mp ht with rfl | ht
          · exact Or.inr rfl
          · exact Or.inl ht
        · exact Nat.le_succ _
      · cases h
  | update runID =>
      simp only [stepE, Option.some.injEq] at h
      subst h
      cases hupd : updateWorkflow s runID with
      | ok s₁ =>
          obtain ⟨ci, run, _, _, rfl⟩ := updateWorkflow_ok hupd
          simp only [hupd]
          constructor
          · intro t ht
            rcases List.mem_cons.mp ht with rfl | ht
            · exact Or.inr rfl
            · exact Or.inl ht
          · exact Nat.le_succ _
      | error msg =>
          simp only [hupd]
          exact ⟨fun t ht => Or.inl ht, le_refl _⟩
  | complete runID =>
      simp only [stepE, Option.some.injEq] at h
      subst h
      cases hcmp : completeWorkflow s runID with
      | ok s₁ =>
          obtain ⟨run, _, rfl⟩ := completeWorkflow_ok hcmp
          simp only [hcmp]
          exact ⟨fun t ht => Or.inl ht, le_refl _⟩
      | error msg =>
          simp only [hcmp]
          exact ⟨fun t ht => Or.inl ht, le_refl _⟩
  | enter c =>
      simp only [stepE] at h
      split at h
      · rename_i w hw
        cases h
        have hwmem : w ∈ s.pending := List.mem_of_find?_eq_some hw
        rw [processStepEnter_nextCtx]
        refine ⟨?_, le_refl _⟩
        intro t ht
        left
        unfold tokensOf at ht ⊢
        rcases List.mem_append.mp ht with hp | ha
        · rw [processStepEnter_pending, map_ctx_filter_pending] at hp
          exact List.mem_append.mpr (Or.inl (List.mem_of_mem_filter hp))
        · revert ha
          simp only [processStepEnter]
          split
          · intro ha
            exact List.mem_append.mpr (Or.inr ha)
          split
          · intro ha
            exact List.mem_append.mpr (Or.inr ha)
          split
          · intro ha
            exact List.mem_append.mpr (Or.inr ha)
          · intro ha
            simp only [List.map_cons] at ha
            rcases List.mem_cons.mp ha with rfl | ha
            · exact List.mem_append.mpr (Or.inl (List.mem_map.mpr ⟨w, hwmem, rfl⟩))
            · exact List.mem_append.mpr (Or.inr ha)
      · cases h
  | fire c reqErr doErr =>
      simp only [stepE] at h
      split at h
      · rename_i a ha
        split at h
        · cases h
        · split at h
          · cases h
            have hfr := fireWatchdog_frame s a reqErr doErr
            rw [hfr.2.2.2.1]
            refine ⟨?_, le_refl _⟩
            intro t ht
            left
            unfold tokensOf at ht ⊢
            rcases List.mem_append.mp ht with hp | hA
            · rw [hfr.2.2.2.2.1] at hp
              exact List.mem_append.mpr (Or.inl hp)
            · rw [fireWatchdog_armed, map_ctx_filter_armed] at hA
              exact List.mem_append.mpr (Or.inr (List.mem_of_mem_filter hA))
          · cases h
      · cases h
  | cancelExit c =>
      simp only [stepE] at h
      split at h
      · split at h
        · cases h
          refine ⟨?_, le_refl _⟩
          intro t ht
          left
          unfold tokensOf at ht ⊢
          rcases List.mem_append.mp ht with hp | hA
          · exact List.mem_append.mpr (Or.inl hp)
          · rw [map_ctx_filter_armed] at hA
            exact List.mem_append.mpr (Or.inr (List.mem_of_mem_filter hA))
        · cases h
      · cases h
  | tick d =>
      simp only [stepE, Option.some.injEq] at h
      subst h
      exact ⟨fun t ht => Or.inl ht, le_refl _⟩

theorem noTok_step {s s' : EngineState} {e : Event} {c : Nat}
    (h : stepE s e = some s') (hc : NoTok c s) : NoTok c s' := by
  obtain ⟨hmem, hlt⟩ := hc
  obtain ⟨htok, hle⟩ := tokens_step h
  constructor
  · intro hmem'
    rcases htok c hmem' with h' | rfl
    · exact hmem h'
    · exact absurd hlt (lt_irrefl _)
  · exact lt_of_lt_of_le hlt hle

theorem noTok_reach {s s' : EngineState} (h : ReachFrom s s') {c : Nat}
    (hc : NoTok c s) : NoTok c s' := by
  induction h with
  | refl => exact hc
  | tail _ hstep ih => exact noTok_step hstep ih

/-- If no armed goroutine holds token `c`, the `fire c` transition is
disabled. -/
theorem fire_disabled_of_noTok {s : EngineState} {c : Nat}
    (h : c ∉ tokensOf s) (reqErr doErr : Bool) :
    stepE s (.fire c reqErr doErr) = none := by
  simp only [stepE]
  have hfind : s.armed.find? (fun a => a.ctx = c) = none := by
    rw [List.find?_eq_none]
    intro a ha hac
    apply h
    unfold tokensOf
    refine List.mem_append.mpr (Or.inr (List.mem_map.mpr ⟨a, ha, ?_⟩))
    simpa using hac
  rw [hfind]

/-- After an armed watchdog fires, its token is dead: no goroutine holds
it and it can never be allocated again. -/
theorem noTok_after_fire {s : EngineState} (hs : Inv s) {a : ArmedWatchdog}
    (ha : a ∈ s.armed) (reqErr doErr : Bool) :
    NoTok a.ctx (fireWatchdog s a reqErr doErr) := by
  have hfr := fireWatchdog_frame s a reqErr doErr
  constructor
  · intro hmem
    unfold tokensOf at hmem
    rcases List.mem_append.mp hmem with hp | hA
    · rw [hfr.2.2.2.2.1] at hp
      have hdisj := (List.nodup_append.mp hs.nodup_tok).2.2
      exact hdisj hp (List.mem_map.mpr ⟨a, ha, rfl⟩)
    · rw [fireWatchdog_armed, map_ctx_filter_armed] at hA
      have := List.of_mem_filter hA
      simp at this
  · rw [hfr.2.2.2.1]
    exact hs.fresh_armed a ha

/-! ### Reachability of the concrete fixtures -/

theorem reach_stInit : Reach sampleCfg stInit :=
  ReachFrom.tail (ReachFrom.refl _)
    (show stepE (initState sampleCfg) (.initiate "r" "w") = some stInit by decide)

theorem reach_stArmed : Reach sampleCfg stArmed :=
  ReachFrom.tail reach_stInit
    (show stepE stInit (.enter 0) = some stArmed by decide)

theorem reach_stLate : Reach sampleCfg stLate :=
  ReachFrom.tail reach_stArmed
    (show stepE stArmed (.tick 50) = some stLate by decide)

theorem reach_quLate : Reach cfg2 quLate :=
  ReachFrom.tail
    (ReachFrom.tail
      (ReachFrom.tail (ReachFrom.refl _)
        (show stepE (initState cfg2) (.initiate "q" "v") = some quInit by decide))
      (show stepE quInit (.enter 0) = some quArmed by decide))
    (show stepE quArmed (.tick 20) = some quLate by decide)

/-- The `ctx.Done()` branch of the `select` is silent: `ticker.Stop()` and
return, with no notification, no run mutation and no store write. -/
theorem cancelExit_silent {s s' : EngineState} {c : Nat}
    (h : stepE s (.cancelExit c) = some s') :
    s'.notifications = s.notifications ∧ s'.runs = s.runs ∧ s'.store = s.store := by
  simp only [stepE] at h
  split at h
  · split at h
    · cases h
      exact ⟨rfl, rfl, rfl⟩
    · cases h
  · cases h

/-- When the watchdog's validation succeeds, its entry persists the step
index in the genie store. -/
theorem processStepEnter_store_success {s : EngineState} {w : Watchdog}
    {wf : WorkflowDef} {stepData : Step}
    (hwf : lookupAssoc s.config w.name = some wf)
    (hlen : w.index < wf.length)
    (hstep : lookupAssoc (wf.getD w.index []) ("step" ++ itoa w.index) = some stepData) :
    (processStepEnter s w).store = setAssoc s.store w.runID (itoa w.index) := by
  simp only [processStepEnter, hwf]
  rw [if_neg (Nat.not_le.mpr hlen)]
  simp only [hstep]

/-- `markRunAsFailed` overwrites the registry entry with `failed = true`
and `end = now`, leaving the other fields alone. -/
theorem markRunAsFailed_lookup_self {s : EngineState} {runID : String} {run : Run}
    (h : lookupAssoc s.runs runID = some run) :
    lookupAssoc (markRunAsFailed s runID).runs runID =
      some { run with failed := true, endTime := some s.now } := by
  unfold markRunAsFailed
  rw [h]
  exact lookupAssoc_setAssoc_self _ _ _

/-! ### The claims -/

/-- **C1** (counterexample).  At `stLate` the step-0 deadline has elapsed
(the fire transition is enabled) and the Notifier invocation fails
(`client.Do` error).  The watchdog logs the payload attempt and returns
WITHOUT `markRunAsFailed`: the run `"r"` still has `failed = false` and
`end = nil` — status Ongoing, not the Failed-with-end-set the claim
demands. -/
theorem c1_counterexample :
    stepE stLate (.fire 0 false true) = some stNotifyErr ∧
    stNotifyErr.notifications = [⟨"w", "step0", "r"⟩] ∧
    lookupAssoc stNotifyErr.runs "r" = some sampleRun ∧
    sampleRun.failed = false ∧ sampleRun.endTime = none ∧
    sampleRun.status = .Ongoing := by
  decide

/-- **C1** (amended).  When a step deadline elapses and the Notifier
invocation (`client.Do`) returns an error, `processStep` logs and returns
early: the run registry and the genie store are completely unchanged — the
run is NOT transitioned to Failed and `end` is NOT set.  Only a successful
`client.Do` leads to `markRunAsFailed`. -/
theorem c1_amended {s : EngineState} {c : Nat} {a : ArmedWatchdog}
    (hfind : s.armed.find? (fun b => b.ctx = c) = some a)
    (hnc : c ∉ s.cancelled)
    (hdl : a.armedAt + a.retryAfter ≤ s.now) :
    ∃ s', stepE s (.fire c false true) = some s' ∧
      s'.runs = s.runs ∧ s'.store = s.store ∧
      s'.notifications = s.notifications ++ [⟨a.name, "step" ++ itoa a.index, a.runID⟩] := by
  refine ⟨fireWatchdog s a false true, ?_, rfl, rfl, rfl⟩
  simp only [stepE, hfind]
  rw [if_neg hnc, if_pos hdl]

/-- Witness for C1's amended theorem, evaluated on the concrete late state. -/
theorem c1_amended_witness :
    stNotifyErr.runs = stLate.runs ∧ stNotifyErr.store = stLate.store ∧
    stNotifyErr.notifications =
      stLate.notifications ++ [⟨"w", "step" ++ itoa 0, "r"⟩] := by
  obtain ⟨s', hstep, h1, h2, h3⟩ :=
    c1_amended
      (show stLate.armed.find? (fun b => b.ctx = 0) = some sampleArmed by decide)
      (by decide) (by decide)
  have hs' : some s' = some stNotifyErr := by
    rw [← hstep]
    decide
  have heq := Option.some.inj hs'
  subst heq
  exact ⟨h1, h2, h3⟩

/-- **C4** (counterexample).  On the unknown run ID `"missing"`,
`CompleteWorkflow` never consults the store: it fails in
`cancelRetryCountdown` with the RunStateMissing message, which differs
from the RunNotFound message `UpdateWorkflow` returns — refuting the claim
that both operations return the RunNotFound error. -/
theorem c4_counterexample :
    completeWorkflow (initState sampleCfg) "missing" =
      .error "run information missing. Did a previous step fail?" ∧
    updateWorkflow (initState sampleCfg) "missing" =
      .error "no data found for run ID: missing" ∧
    ("run information missing. Did a previous step fail?" : String) ≠
      "no data found for run ID: missing" := by
  refine ⟨by decide, by decide, by decide⟩

/-- **C4** (amended).  For a run ID with no registered run in a reachable
state, `UpdateWorkflow` returns the RunNotFound error ("no data found for
run ID: ...") while `CompleteWorkflow` returns the RunStateMissing error
("run information missing. ..."); both return before mutating anything, so
the corresponding engine transitions leave the state exactly unchanged (no
run created, no watchdog started, store untouched). -/
theorem c4_amended {cfg : Workflows} {s : EngineState} {runID : String}
    (hreach : Reach cfg s) (hnone : lookupAssoc s.runs runID = none) :
    updateWorkflow s runID = .error ("no data found for run ID: " ++ runID) ∧
    completeWorkflow s runID =
      .error "run information missing. Did a previous step fail?" ∧
    stepE s (.update runID) = some s ∧
    stepE s (.complete runID) = some s := by
  have hstore : lookupAssoc s.store runID = none := by
    cases hv : lookupAssoc s.store runID with
    | none => rfl
    | some v =>
        have hsome := (inv_reach hreach).store_runs runID v hv
        rw [hnone] at hsome
        simp at hsome
  have hupd : updateWorkflow s runID =
      .error ("no data found for run ID: " ++ runID) := by
    unfold updateWorkflow
    rw [hstore]
  have hcmp : completeWorkflow s runID =
      .error "run information missing. Did a previous step fail?" := by
    unfold completeWorkflow cancelRetryCountdown
    rw [hnone]
  refine ⟨hupd, hcmp, ?_, ?_⟩
  · simp [stepE, hupd]
  · simp [stepE, hcmp]

/-- Witness for C4's amended theorem: the freshly constructed engine and
the run ID "nope-id". -/
theorem c4_amended_witness :
    updateWorkflow (initState sampleCfg) "nope-id" =
      .error ("no data found for run ID: " ++ "nope-id") ∧
    completeWorkflow (initState sampleCfg) "nope-id" =
      .error "run information missing. Did a previous step fail?" ∧
    stepE (initState sampleCfg) (.update "nope-id") = some (initState sampleCfg) ∧
    stepE (initState sampleCfg) (.complete "nope-id") = some (initState sampleCfg) :=
  c4_amended (ReachFrom.refl _) (by decide)

/-- **C8** (confirmed).  A watchdog started for a workflow name absent
from the definition store, or for a step index out of range of that
workflow's step list (which covers every workflow with zero steps), exits
immediately: no timer is armed, the Notifier is never invoked, the run
registry and the genie store are untouched, and the run keeps its exact
record — Ongoing at its current step. -/
theorem c8 {s : EngineState} {w : Watchdog} (hw : w ∈ s.pending)
    (hbad : lookupAssoc s.config w.name = none ∨
            ∃ wf, lookupAssoc s.config w.name = some wf ∧ wf.length ≤ w.index) :
    (processStepEnter s w).store = s.store ∧
    (processStepEnter s w).runs = s.runs ∧
    (processStepEnter s w).armed = s.armed ∧
    (processStepEnter s w).notifications = s.notifications ∧
    (processStepEnter s w).cancelled = s.cancelled ∧
    w ∉ (processStepEnter s w).pending ∧
    ∀ run, lookupAssoc s.runs w.runID = some run →
      lookupAssoc (processStepEnter s w).runs w.runID = some run := by
  have hdrop : processStepEnter s w =
      { s with pending := s.pending.filter (fun v => v.ctx ≠ w.ctx) } := by
    simp only [processStepEnter]
    rcases hbad with hnone | ⟨wf, hwf, hlen⟩
    · rw [hnone]
    · simp only [hwf]
      rw [if_pos hlen]
  rw [hdrop]
  refine ⟨rfl, rfl, rfl, rfl, rfl, ?_, fun run hr => hr⟩
  intro hmem
  have hf := List.of_mem_filter hmem
  simp at hf

/-- Witness for C8: the watchdog spawned for the absent workflow name
`"nope"` exits leaving the whole state (bar its own goroutine) unchanged. -/
theorem c8_witness :
    (processStepEnter stBadName ⟨0, 0, "x", "nope"⟩).store = stBadName.store ∧
    (processStepEnter stBadName ⟨0, 0, "x", "nope"⟩).runs = stBadName.runs ∧
    (processStepEnter stBadName ⟨0, 0, "x", "nope"⟩).armed = stBadName.armed ∧
    (processStepEnter stBadName ⟨0, 0, "x", "nope"⟩).notifications = stBadName.notifications := by
  have h := c8 (show (⟨0, 0, "x", "nope"⟩ : Watchdog) ∈ stBadName.pending by decide)
    (Or.inl (by decide))
  exact ⟨h.1, h.2.1, h.2.2.1, h.2.2.2.1⟩

/-- **C10** (confirmed).  `InitiateWorkflow` never writes the genie store
(only a validated watchdog's `store.Set` does).  Initiating a run for a
workflow name absent from the definition store therefore leaves the store
without an entry even after the spawned watchdog runs, so a subsequent
`UpdateWorkflow` on the returned run ID fails with the RunNotFound-style
"no data found for run ID" error although the run itself sits in the
engine's run registry. -/
theorem c10 {s : EngineState} {runID name : String}
    (hname : lookupAssoc s.config name = none)
    (hstore : lookupAssoc s.store runID = none) :
    (initiateWorkflow s runID name).store = s.store ∧
    (initiateWorkflow s runID name).pending =
      ⟨s.nextCtx, 0, runID, name⟩ :: s.pending ∧
    (processStepEnter (initiateWorkflow s runID name)
      ⟨s.nextCtx, 0, runID, name⟩).store = s.store ∧
    updateWorkflow (processStepEnter (initiateWorkflow s runID name)
      ⟨s.nextCtx, 0, runID, name⟩) runID =
      .error ("no data found for run ID: " ++ runID) ∧
    (lookupAssoc (processStepEnter (initiateWorkflow s runID name)
      ⟨s.nextCtx, 0, runID, name⟩).runs runID).isSome := by
  have hdrop : processStepEnter (initiateWorkflow s runID name)
      ⟨s.nextCtx, 0, runID, name⟩ =
      { config := s.config,
        runs := setAssoc s.runs runID
          ({ currStep := 0, failed := false, workflowName := name,
             retryCancel := s.nextCtx, start := some s.now, endTime := none }),
        store := s.store,
        cancelled := s.cancelled,
        nextCtx := s.nextCtx + 1,
        pending := (⟨s.nextCtx, 0, runID, name⟩ :: s.pending).filter
          (fun v => v.ctx ≠ s.nextCtx),
        armed := s.armed,
        notifications := s.notifications,
        now := s.now } := by
    simp only [processStepEnter, initiateWorkflow]
    rw [hname]
  refine ⟨rfl, rfl, ?_, ?_, ?_⟩
  · rw [hdrop]
  · rw [hdrop]
    unfold updateWorkflow
    rw [hstore]
  · rw [hdrop]
    show (lookupAssoc (setAssoc s.runs runID
      ({ currStep := 0, failed := false, workflowName := name,
         retryCancel := s.nextCtx, start := some s.now, endTime := none })) runID).isSome = true
    rw [lookupAssoc_setAssoc_self]
    rfl

/-- Witness for C10: initiating `"x2"` for the undefined workflow
`"ghost"` on the fresh engine. -/
theorem c10_witness :
    (initiateWorkflow (initState sampleCfg) "x2" "ghost").store =
      (initState sampleCfg).store ∧
    updateWorkflow (processStepEnter (initiateWorkflow (initState sampleCfg) "x2" "ghost")
      ⟨(initState sampleCfg).nextCtx, 0, "x2", "ghost"⟩) "x2" =
      .error ("no data found for run ID: " ++ "x2") ∧
    (lookupAssoc (processStepEnter (initiateWorkflow (initState sampleCfg) "x2" "ghost")
      ⟨(initState sampleCfg).nextCtx, 0, "x2", "ghost"⟩).runs "x2").isSome := by
  have h := c10 (show lookupAssoc (initState sampleCfg).config "ghost" = none by decide)
    (show lookupAssoc (initState sampleCfg).store "x2" = none by decide)
  exact ⟨h.1, h.2.2.2.1, h.2.2.2.2⟩

/-- **C3** (counterexample).  `stDone` holds a Completed (terminal) run,
yet `UpdateWorkflow` still succeeds and mutates it — `currStep` 0 → 1, a
fresh cancel handle, a new watchdog — and when that watchdog's deadline
elapses the run becomes Failed: its status regresses Completed → Failed,
refuting monotonicity. -/
theorem c3_counterexample :
    (lookupAssoc stDone.runs "r").map Run.status = some .Completed ∧
    updateWorkflow stDone "r" = .ok stAfterUpd ∧
    lookupAssoc stAfterUpd.runs "r" =
      some { currStep := 1, failed := false, workflowName := "w",
             retryCancel := 1, start := some 0, endTime := some 0 } ∧
    stepE stAfterUpd (.enter 1) = some stAfterEnter ∧
    stepE stAfterEnter (.tick 50) = some stAfterTick ∧
    stepE stAfterTick (.fire 1 false false) = some stRegressed ∧
    (lookupAssoc stRegressed.runs "r").map Run.status = some .Failed := by
  decide

/-- **C3** (amended).  Status is not monotonic because the engine never
guards terminal runs: on any run with a store entry — terminal or not —
`UpdateWorkflow` succeeds, overwrites the registry record (incrementing
`currStep` and replacing the cancel handle) and spawns a fresh watchdog,
through which a Completed run can later be marked Failed. -/
theorem c3_amended {s : EngineState} {runID v : String} {run : Run}
    (hstore : lookupAssoc s.store runID = some v)
    (hrun : lookupAssoc s.runs runID = some run)
    (hterm : run.status ≠ .Ongoing) :
    ∃ s', updateWorkflow s runID = .ok s' ∧
      lookupAssoc s'.runs runID =
        some { run with retryCancel := s.nextCtx, currStep := atoi v + 1 } ∧
      ⟨s.nextCtx, atoi v + 1, runID, run.workflowName⟩ ∈ s'.pending := by
  let t : EngineState :=
    { s with
      cancelled := run.retryCancel :: s.cancelled,
      nextCtx := s.nextCtx + 1,
      runs := setAssoc s.runs runID
        ({ run with retryCancel := s.nextCtx, currStep := atoi v + 1 }),
      pending := ⟨s.nextCtx, atoi v + 1, runID, run.workflowName⟩ :: s.pending }
  refine ⟨t, ?_, ?_, ?_⟩
  · unfold updateWorkflow cancelRetryCountdown
    rw [hstore, hrun]
  · exact lookupAssoc_setAssoc_self _ _ _
  · exact List.mem_cons_self _ _

/-- Witness for C3's amended theorem: the Completed run of `stDone` is
advanced by `UpdateWorkflow` as if it were live. -/
theorem c3_amended_witness :
    updateWorkflow stDone "r" = .ok stAfterUpd ∧
    lookupAssoc stAfterUpd.runs "r" =
      some { currStep := 1, failed := false, workflowName := "w",
             retryCancel := 1, start := some 0, endTime := some 0 } := by
  obtain ⟨s', h1, h2, h3⟩ := c3_amended
    (show lookupAssoc stDone.store "r" = some "0" by decide)
    (show lookupAssoc stDone.runs "r" = some { sampleRun with endTime := some 0 } by decide)
    (by decide)
  have hok : (Except.ok s' : Except String EngineState) = .ok stAfterUpd := by
    rw [← h1]
    decide
  injection hok with hs
  subst hs
  refine ⟨h1, ?_⟩
  rw [h2]
  decide

/-- **C6** (confirmed).  A successful `UpdateWorkflow` cancels the run's
current watchdog handle, overwrites the registry record with `currStep`
equal to the persisted index plus one and a single fresh cancel handle
(`nextCtx`, provably distinct from the replaced one — replaced, never
composed), and spawns exactly one new watchdog for the incremented index
(`pending` grows by exactly that entry; nothing is armed directly). -/
theorem c6 {cfg : Workflows} {s : EngineState} {runID v : String} {run : Run}
    (hreach : Reach cfg s)
    (hstore : lookupAssoc s.store runID = some v)
    (hrun : lookupAssoc s.runs runID = some run) :
    ∃ s', updateWorkflow s runID = .ok s' ∧
      run.retryCancel ∈ s'.cancelled ∧
      lookupAssoc s'.runs runID =
        some { run with retryCancel := s.nextCtx, currStep := atoi v + 1 } ∧
      s.nextCtx ≠ run.retryCancel ∧
      s'.pending = ⟨s.nextCtx, atoi v + 1, runID, run.workflowName⟩ :: s.pending ∧
      s'.armed = s.armed := by
  have hfresh : run.retryCancel < s.nextCtx := (inv_reach hreach).fresh_runs runID run hrun
  let t : EngineState :=
    { s with
      cancelled := run.retryCancel :: s.cancelled,
      nextCtx := s.nextCtx + 1,
      runs := setAssoc s.runs runID
        ({ run with retryCancel := s.nextCtx, currStep := atoi v + 1 }),
      pending := ⟨s.nextCtx, atoi v + 1, runID, run.workflowName⟩ :: s.pending }
  refine ⟨t, ?_, ?_, ?_, ?_, ?_, ?_⟩
  · unfold updateWorkflow cancelRetryCountdown
    rw [hstore, hrun]
  · exact List.mem_cons_self _ _
  · exact lookupAssoc_setAssoc_self _ _ _
  · exact ne_of_gt hfresh
  · rfl
  · rfl

/-- Witness for C6 at the reachable state `stArmed`. -/
theorem c6_witness :
    updateWorkflow stArmed "r" = .ok stUpd ∧
    (0 : Nat) ∈ stUpd.cancelled ∧
    lookupAssoc stUpd.runs "r" =
      some { sampleRun with retryCancel := 1, currStep := 1 } ∧
    stUpd.armed = stArmed.armed := by
  obtain ⟨s', h1, h2, h3, h4, h5, h6⟩ := c6 reach_stArmed
    (show lookupAssoc stArmed.store "r" = some "0" by decide)
    (show lookupAssoc stArmed.runs "r" = some sampleRun by decide)
  have hok : (Except.ok s' : Except String EngineState) = .ok stUpd := by
    rw [← h1]
    decide
  injection hok with hs
  subst hs
  refine ⟨h1, h2, ?_, h6⟩
  rw [h3]
  decide

/-- **C7** (counterexample).  `stFailedLater` holds an existing run that is
already Failed (`failed = true`, `end = 50`).  `CompleteWorkflow` succeeds
on it, but the run's status stays Failed — it does not become
terminal-success — and `end` is even overwritten from 50 to 60. -/
theorem c7_counterexample :
    (lookupAssoc stFailedLater.runs "r").map Run.status = some .Failed ∧
    lookupAssoc stFailedLater.runs "r" =
      some { sampleRun with failed := true, endTime := some 50 } ∧
    completeWorkflow stFailedLater "r" = .ok stOverwritten ∧
    lookupAssoc stOverwritten.runs "r" =
      some { sampleRun with failed := true, endTime := some 60 } ∧
    (lookupAssoc stOverwritten.runs "r").map Run.status = some .Failed := by
  decide

/-- **C7** (amended).  A successful `CompleteWorkflow` sets `end = now` and
changes nothing else — `workflowName`, `start`, `currStep`, `failed` and
the cancel handle are untouched.  Consequently the status becomes
terminal-success exactly when the run was not already failed; on an
already-Failed run the status remains Failed. -/
theorem c7_amended {s : EngineState} {runID : String} {run : Run}
    (hrun : lookupAssoc s.runs runID = some run) :
    ∃ s' run', completeWorkflow s runID = .ok s' ∧
      lookupAssoc s'.runs runID = some run' ∧
      run'.endTime = some s.now ∧
      run'.workflowName = run.workflowName ∧
      run'.start = run.start ∧
      run'.currStep = run.currStep ∧
      run'.failed = run.failed ∧
      run'.retryCancel = run.retryCancel ∧
      (run.failed = false → run'.status = .Completed) ∧
      (run.failed = true → run'.status = .Failed) := by
  let t : EngineState :=
    { s with
      cancelled := run.retryCancel :: s.cancelled,
      runs := setAssoc s.runs runID ({ run with endTime := some s.now }) }
  refine ⟨t, { run with endTime := some s.now },
          ?_, ?_, rfl, rfl, rfl, rfl, rfl, rfl, ?_, ?_⟩
  · unfold completeWorkflow cancelRetryCountdown
    rw [hrun]
  · exact lookupAssoc_setAssoc_self _ _ _
  · intro hf
    simp [Run.status, hf]
  · intro hf
    simp [Run.status, hf]

/-- Witness for C7's amended theorem: completing the Ongoing run of
`stArmed` yields terminal-success. -/
theorem c7_amended_witness :
    completeWorkflow stArmed "r" = .ok stDone ∧
    lookupAssoc stDone.runs "r" = some { sampleRun with endTime := some 0 } ∧
    ({ sampleRun with endTime := some 0 } : Run).status = .Completed := by
  obtain ⟨s', run', h1, h2, h3, h4, h5, h6, h7, h8, h9, h10⟩ :=
    c7_amended (show lookupAssoc stArmed.runs "r" = some sampleRun by decide)
  have hok : (Except.ok s' : Except String EngineState) = .ok stDone := by
    rw [← h1]
    decide
  injection hok with hs
  subst hs
  have hr : some run' = some ({ sampleRun with endTime := some 0 } : Run) := by
    rw [← h2]
    decide
  injection hr with hr'
  subst hr'
  exact ⟨h1, h2, h9 rfl⟩

/-- **C5** (confirmed).  If `UpdateWorkflow` or `CompleteWorkflow` succeeds
while the run's current watchdog is armed and its deadline has not yet
elapsed, the watchdog's context token is cancelled; from then on, in every
reachable future state, the ticker branch (`fire`, the only transition
that invokes the Notifier or mutates the run) is permanently disabled for
that watchdog, and the `ctx.Done()` branch it will take is silent.  The
run's status is Ongoing after Update and terminal-success after
Complete. -/
theorem c5 {s : EngineState} {runID : String} {run : Run} {a : ArmedWatchdog}
    (hrun : lookupAssoc s.runs runID = some run)
    (hOng : run.status = .Ongoing)
    (ha : a ∈ s.armed) (hctx : a.ctx = run.retryCancel)
    (hbefore : s.now < a.armedAt + a.retryAfter) :
    (∀ s₁, updateWorkflow s runID = .ok s₁ →
       run.retryCancel ∈ s₁.cancelled ∧
       (∀ s₂, ReachFrom s₁ s₂ → ∀ re de, stepE s₂ (.fire a.ctx re de) = none) ∧
       (∀ s₂ s₃, ReachFrom s₁ s₂ → stepE s₂ (.cancelExit a.ctx) = some s₃ →
          s₃.notifications = s₂.notifications ∧ s₃.runs = s₂.runs) ∧
       (∃ run', lookupAssoc s₁.runs runID = some run' ∧ run'.status = .Ongoing)) ∧
    (∀ s₁, completeWorkflow s runID = .ok s₁ →
       run.retryCancel ∈ s₁.cancelled ∧
       (∀ s₂, ReachFrom s₁ s₂ → ∀ re de, stepE s₂ (.fire a.ctx re de) = none) ∧
       (∀ s₂ s₃, ReachFrom s₁ s₂ → stepE s₂ (.cancelExit a.ctx) = some s₃ →
          s₃.notifications = s₂.notifications ∧ s₃.runs = s₂.runs) ∧
       (∃ run', lookupAssoc s₁.runs runID = some run' ∧ run'.status = .Completed)) := by
  have hfe : run.failed = false ∧ run.endTime = none := by
    unfold Run.status at hOng
    by_cases hf : run.failed
    · simp [hf] at hOng
    · by_cases he : run.endTime.isSome
      · simp [hf, he] at hOng
      · exact ⟨by simpa using hf, Option.not_isSome_iff_eq_none.mp he⟩
  constructor
  · intro s₁ hupd
    obtain ⟨ci, run₀, hstore₀, hrun₀, rfl⟩ := updateWorkflow_ok hupd
    rw [hrun] at hrun₀
    have hr0 : run = run₀ := Option.some.inj hrun₀
    subst hr0
    have hmem : run.retryCancel ∈ run.retryCancel :: s.cancelled :=
      List.mem_cons_self _ _
    refine ⟨hmem, ?_, ?_, ?_⟩
    · intro s₂ hr2 re de
      rw [hctx]
      exact fire_disabled_of_cancelled (cancelled_mono_reach hr2 _ hmem) re de
    · intro s₂ s₃ _ hce
      have hsil := cancelExit_silent hce
      exact ⟨hsil.1, hsil.2.1⟩
    · refine ⟨{ run with retryCancel := s.nextCtx, currStep := atoi ci + 1 },
        lookupAssoc_setAssoc_self _ _ _, ?_⟩
      simp [Run.status, hfe.1, hfe.2]
  · intro s₁ hcmp
    obtain ⟨run₀, hrun₀, rfl⟩ := completeWorkflow_ok hcmp
    rw [hrun] at hrun₀
    have hr0 : run = run₀ := Option.some.inj hrun₀
    subst hr0
    have hmem : run.retryCancel ∈ run.retryCancel :: s.cancelled :=
      List.mem_cons_self _ _
    refine ⟨hmem, ?_, ?_, ?_⟩
    · intro s₂ hr2 re de
      rw [hctx]
      exact fire_disabled_of_cancelled (cancelled_mono_reach hr2 _ hmem) re de
    · intro s₂ s₃ _ hce
      have hsil := cancelExit_silent hce
      exact ⟨hsil.1, hsil.2.1⟩
    · refine ⟨{ run with endTime := some s.now },
        lookupAssoc_setAssoc_self _ _ _, ?_⟩
      simp [Run.status, hfe.1]

/-- Witness for C5: both public operations, called at `stArmed` (10ns-deep
into a 50ns deadline is irrelevant: the clock still reads 0 < 50), cancel
token 0 and permanently disable its fire transition. -/
theorem c5_witness :
    (0 : Nat) ∈ stUpd.cancelled ∧
    stepE stUpd (.fire 0 false false) = none ∧
    (0 : Nat) ∈ stDone.cancelled ∧
    stepE stDone (.fire 0 false false) = none := by
  have h := c5 (show lookupAssoc stArmed.runs "r" = some sampleRun by decide)
    (by decide)
    (show sampleArmed ∈ stArmed.armed by decide)
    (by decide) (by decide)
  obtain ⟨h1, h2, h3, h4⟩ := h.1 stUpd (by decide)
  obtain ⟨g1, g2, g3, g4⟩ := h.2 stDone (by decide)
  exact ⟨h1, h2 stUpd (ReachFrom.refl _) false false, g1,
    g2 stDone (ReachFrom.refl _) false false⟩

/-- **C2** (counterexample).  At `quLate` the deadline of the only step of
`"v"` has elapsed with no Update/Complete call.  The Notifier is invoked
exactly once with the matching payload, but `client.Do` fails, so the run
does NOT transition to Failed: it stays Ongoing with no `end` — the
claim's conjunction is false. -/
theorem c2_counterexample :
    stepE quLate (.fire 0 false true) = some quNotifyErr ∧
    quNotifyErr.notifications = [⟨"v", "step0", "q"⟩] ∧
    lookupAssoc quNotifyErr.runs "q" =
      some { currStep := 0, failed := false, workflowName := "v",
             retryCancel := 0, start := some 0, endTime := none } ∧
    (lookupAssoc quNotifyErr.runs "q").map Run.status = some .Ongoing := by
  decide

/-- **C2** (amended).  In any reachable state, when a step deadline elapses
with the watchdog uncancelled and the HTTP request can be built, the
Notifier is invoked exactly once — exactly one notification is appended,
its `{workflowName, stepName, runID}` fields match the run's current
registry record, and the fired watchdog is permanently disabled, so it can
never notify again.  If the invocation succeeds the run transitions to
Failed with `end = now`; if it fails the run is left untouched (C1). -/
theorem c2_amended {cfg : Workflows} {s : EngineState} {c : Nat} {a : ArmedWatchdog}
    (hreach : Reach cfg s)
    (hfind : s.armed.find? (fun b => b.ctx = c) = some a)
    (hnc : c ∉ s.cancelled)
    (hdl : a.armedAt + a.retryAfter ≤ s.now) (doErr : Bool) :
    ∃ s' run,
      stepE s (.fire c false doErr) = some s' ∧
      lookupAssoc s.runs a.runID = some run ∧
      s'.notifications = s.notifications ++
        [⟨run.workflowName, "step" ++ itoa run.currStep, a.runID⟩] ∧
      (doErr = false →
        lookupAssoc s'.runs a.runID =
          some { run with failed := true, endTime := some s.now } ∧
        ({ run with failed := true, endTime := some s.now } : Run).status = .Failed) ∧
      (∀ s₂, ReachFrom s' s₂ → ∀ re de, stepE s₂ (.fire c re de) = none) := by
  have hs := inv_reach hreach
  have ha : a ∈ s.armed := List.mem_of_find?_eq_some hfind
  have hac : a.ctx = c := by
    have := List.find?_some hfind
    simpa using this
  rcases hs.corr_armed a ha with hcanc | ⟨run, hrun, h₁, h₂, h₃⟩
  · rw [hac] at hcanc
    exact absurd hcanc hnc
  refine ⟨fireWatchdog s a false doErr, run, ?_, hrun, ?_, ?_, ?_⟩
  · simp only [stepE, hfind]
    rw [if_neg hnc, if_pos hdl]
  · rw [h₂, h₃]
    cases doErr with
    | true => rfl
    | false =>
        exact (markRunAsFailed_frame
          { s with armed := s.armed.filter (fun b => b.ctx ≠ a.ctx),
                   notifications := s.notifications ++
                     [⟨a.name, "step" ++ itoa a.index, a.runID⟩] } a.runID).2.2.2.2.2.2.1
  · intro hde
    subst hde
    constructor
    · exact markRunAsFailed_lookup_self
        (show lookupAssoc ({ s with
          armed := s.armed.filter (fun b => b.ctx ≠ a.ctx),
          notifications := s.notifications ++
            [⟨a.name, "step" ++ itoa a.index, a.runID⟩] } : EngineState).runs a.runID
            = some run from hrun)
    · simp [Run.status]
  · intro s₂ hr2 re de
    have hnt : NoTok c (fireWatchdog s a false doErr) := by
      have hafter := noTok_after_fire hs ha false doErr
      rwa [hac] at hafter
    exact fire_disabled_of_noTok (noTok_reach hr2 hnt).1 re de

/-- Witness for C2's amended theorem at `quLate`, notifier succeeding. -/
theorem c2_amended_witness :
    stepE quLate (.fire 0 false false) = some quFailed ∧
    quFailed.notifications = [⟨"v", "step" ++ itoa 0, "q"⟩] ∧
    lookupAssoc quFailed.runs "q" =
      some { currStep := 0, failed := true, workflowName := "v",
             retryCancel := 0, start := some 0, endTime := some 20 } ∧
    stepE quFailed (.fire 0 false false) = none := by
  obtain ⟨s', run, h1, h2, h3, h4, h5⟩ := c2_amended reach_quLate
    (show quLate.armed.find? (fun b => b.ctx = 0) =
      some ⟨0, 0, "q", "v", 0, 20, "http://cb/v"⟩ by decide)
    (by decide) (by decide) false
  have hok : some s' = some quFailed := by
    rw [← h1]
    decide
  injection hok with hs'
  subst hs'
  have hr : some run = some quRun := by
    rw [← h2]
    decide
  injection hr with hr'
  subst hr'
  refine ⟨h1, ?_, ?_, h5 quFailed (ReachFrom.refl _) false false⟩
  · rw [h3]
    decide
  · rw [(h4 rfl).1]
    decide

/-- **C9** (confirmed).  `UpdateWorkflow` is not idempotent: with the run's
persisted step index at `i`, one Update advances `currStep` to `i + 1` and
its watchdog persists `i + 1`; a second Update in succession (after that
persistence — the single intended advance having completed) reads the
persisted `i + 1` and advances the run again, leaving `currStep = i + 2`. -/
theorem c9 {s : EngineState} {runID v : String} {i : Nat} {run : Run}
    {wf : WorkflowDef} {stepData : Step}
    (hstore : lookupAssoc s.store runID = some v)
    (hv : atoi v = i)
    (hrun : lookupAssoc s.runs runID = some run)
    (hwf : lookupAssoc s.config run.workflowName = some wf)
    (hlen : i + 1 < wf.length)
    (hstep : lookupAssoc (wf.getD (i + 1) []) ("step" ++ itoa (i + 1)) = some stepData) :
    ∃ s₁ s₂ s₃ run₃,
      updateWorkflow s runID = .ok s₁ ∧
      stepE s₁ (.enter s.nextCtx) = some s₂ ∧
      updateWorkflow s₂ runID = .ok s₃ ∧
      lookupAssoc s₃.runs runID = some run₃ ∧
      run₃.currStep = i + 2 := by
  let run₁ : Run := { run with retryCancel := s.nextCtx, currStep := i + 1 }
  let wd : Watchdog := ⟨s.nextCtx, i + 1, runID, run.workflowName⟩
  let s₁ : EngineState :=
    { s with
      cancelled := run.retryCancel :: s.cancelled,
      nextCtx := s.nextCtx + 1,
      runs := setAssoc s.runs runID run₁,
      pending := wd :: s.pending }
  have h1 : updateWorkflow s runID = .ok s₁ := by
    unfold updateWorkflow cancelRetryCountdown
    rw [hstore, hrun]
    dsimp only
    rw [hv]
  have hfind : s₁.pending.find? (fun w => w.ctx = s.nextCtx) = some wd := by
    show (wd :: s.pending).find? (fun w => w.ctx = s.nextCtx) = some wd
    refine List.find?_cons_of_pos _ ?_
    simp
  have h2 : stepE s₁ (.enter s.nextCtx) = some (processStepEnter s₁ wd) := by
    simp only [stepE, hfind]
  have hstoreS : (processStepEnter s₁ wd).store =
      setAssoc s₁.store runID (itoa (i + 1)) :=
    processStepEnter_store_success
      (show lookupAssoc s₁.config wd.name = some wf from hwf)
      (show wd.index < wf.length from hlen)
      (show lookupAssoc (wf.getD wd.index []) ("step" ++ itoa wd.index) = some stepData
        from hstep)
  have hst2 : lookupAssoc (processStepEnter s₁ wd).store runID = some (itoa (i + 1)) := by
    rw [hstoreS]
    exact lookupAssoc_setAssoc_self _ _ _
  have hrn2 : lookupAssoc (processStepEnter s₁ wd).runs runID = some run₁ := by
    rw [processStepEnter_runs]
    exact lookupAssoc_setAssoc_self _ _ _
  have h3 : updateWorkflow (processStepEnter s₁ wd) runID =
      .ok { processStepEnter s₁ wd with
            cancelled := run₁.retryCancel :: (processStepEnter s₁ wd).cancelled,
            nextCtx := (processStepEnter s₁ wd).nextCtx + 1,
            runs := setAssoc (processStepEnter s₁ wd).runs runID
              ({ run₁ with retryCancel := (processStepEnter s₁ wd).nextCtx,
                           currStep := atoi (itoa (i + 1)) + 1 }),
            pending := ⟨(processStepEnter s₁ wd).nextCtx, atoi (itoa (i + 1)) + 1,
                        runID, run₁.workflowName⟩ :: (processStepEnter s₁ wd).pending } := by
    unfold updateWorkflow cancelRetryCountdown
    rw [hst2, hrn2]
  refine ⟨s₁, processStepEnter s₁ wd, _,
    { run₁ with retryCancel := (processStepEnter s₁ wd).nextCtx,
                currStep := atoi (itoa (i + 1)) + 1 },
    h1, h2, h3, ?_, ?_⟩
  · exact lookupAssoc_setAssoc_self _ _ _
  · show atoi (itoa (i + 1)) + 1 = i + 2
    rw [atoi_itoa]

/-- Witness for C9: two successive Updates on `"r"` (the first watchdog
having persisted step 1) leave the run at step 2. -/
theorem c9_witness :
    updateWorkflow stArmed "r" = .ok stUpd ∧
    stepE stUpd (.enter 1) = some stUpdEnter ∧
    updateWorkflow stUpdEnter "r" = .ok stUpd2 ∧
    lookupAssoc stUpd2.runs "r" =
      some { sampleRun with retryCancel := 2, currStep := 2 } := by
  obtain ⟨s₁, s₂, s₃, run₃, h1, h2, h3, h4, h5⟩ :=
    c9 (show lookupAssoc stArmed.store "r" = some "0" by decide)
      (show atoi "0" = 0 by decide)
      (show lookupAssoc stArmed.runs "r" = some sampleRun by decide)
      (show lookupAssoc stArmed.config sampleRun.workflowName =
        some [[("step0", wStep0)], [("step1", wStep1)]] by decide)
      (by decide)
      (show lookupAssoc ([[("step0", wStep0)], [("step1", wStep1)]].getD 1 [])
        ("step" ++ itoa 1) = some wStep1 by decide)
  have e1 : (Except.ok s₁ : Except String EngineState) = .ok stUpd := by
    rw [← h1]
    decide
  injection e1 with e1'
  subst e1'
  have e2 : some s₂ = some stUpdEnter := by
    rw [← h2]
    decide
  injection e2 with e2'
  subst e2'
  have e3 : (Except.ok s₃ : Except String EngineState) = .ok stUpd2 := by
    rw [← h3]
    decide
  injection e3 with e3'
  subst e3'
  have e4 : some run₃ = some ({ sampleRun with retryCancel := 2, currStep := 2 } : Run) := by
    rw [← h4]
    decide
  injection e4 with e4'
  subst e4'
  exact ⟨h1, h2, h3, h4⟩

end Flho
